import Mathlib

/-!
Verification of the cookie file store (`tough-cookie-file-store`).

This file shallowly embeds the store's core data structures and operations:
the in-memory cookies index (`src/lib/cookie-file-store.ts`,
`src/lib/cookies-index.ts`), the line-oriented Netscape `cookies.txt` codec
(`netscape-cookies-txt.ts`), the file-format resolution, the pending-load
dispatch of the store facade, and the asynchronous write scheduler.

JavaScript plain objects with string keys are modelled as insertion-ordered
association lists: for non-integer-like keys (domains, paths, cookie names)
JavaScript preserves insertion order, lookup is by key, assignment replaces
in place or appends, and `delete` removes the key.  The quirk that the JS
`delete` operator returns `true` even when the property does not exist
(ECMA-262 OrdinaryDelete returns `true` when the property is not found) is
modelled explicitly by `jsDeleteExpr`.
-/

/-- A JavaScript plain object with string keys, as an insertion-ordered
association list. -/
abbrev JsObj (α : Type) := List (String × α)

/-- Property lookup `m[k]`: the value at the first matching key, if any. -/
def jsGet {α : Type} : JsObj α → String → Option α
  | [], _ => none
  | e :: rest, k => if e.1 = k then some e.2 else jsGet rest k

/-- Property assignment `m[k] = v`: replaces the value in place when the key
is present, otherwise appends the new key (JS insertion order). -/
def jsSet {α : Type} : JsObj α → String → α → JsObj α
  | [], k, v => [(k, v)]
  | e :: rest, k, v => if e.1 = k then (k, v) :: rest else e :: jsSet rest k v

/-- Effect of the statement `delete m[k]`: the object without key `k`. -/
def jsDelete {α : Type} : JsObj α → String → JsObj α
  | [], _ => []
  | e :: rest, k => if e.1 = k then jsDelete rest k else e :: jsDelete rest k

/-- The JS expression `delete m[k]`: the mutated object together with the
value of the expression.  For configurable properties of a plain object
`delete` evaluates to `true` whether or not the property existed
(ECMA-262 OrdinaryDelete returns `true` when the property is not found). -/
def jsDeleteExpr {α : Type} (m : JsObj α) (k : String) : JsObj α × Bool :=
  (jsDelete m k, true)

/-- The test `Object.keys(m).length === 0`. -/
def jsIsEmpty {α : Type} (m : JsObj α) : Bool := m.isEmpty

/-- Cookie record, the fields of the external `tough.Cookie` used by this
store.  `expires` holds the expiry as epoch seconds (`some s` for a `Date`
at `s * 1000` milliseconds, `none` for the `"Infinity"` / `null` session
marker).  Fields of `tough.Cookie` the store never reads (`creation`,
`lastAccessed`, `extensions`, ...) are omitted. -/
structure Cookie where
  key : Option String
  value : String
  domain : Option String
  path : Option String
  secure : Bool
  httpOnly : Bool
  hostOnly : Option Bool
  expires : Option Int
  creationIndex : Option Nat
deriving DecidableEq, Repr

/-- Map of cookie key to cookie (`CookiesMap` in `cookies-index.ts`). -/
abbrev CookiesMap := JsObj Cookie

/-- Map of path to cookies map (`CookiesDomainData` in `cookies-index.ts`). -/
abbrev CookiesDomainData := JsObj CookiesMap

/-- The three-level in-memory index, domain to path to key to cookie
(`CookiesIndex` in `cookies-index.ts`). -/
abbrev CookiesIndex := JsObj CookiesDomainData

/-- Lowercases a string character-wise (ASCII). -/
def strToLower (s : String) : String := ⟨s.data.map Char.toLower⟩

/-- Modelled from the spec: the external cookie library's domain
canonicalization (`tough.canonicalDomain`), "normalized domain string
(lowercased, punycode-normalized)"; `null` propagates to `null`.  The model
lowercases (punycode normalization is the identity on the ASCII domains
considered here). -/
def canonicalDomain : Option String → Option String
  | none => none
  | some s => some (strToLower s)

/-- Embeds `_findCookieSync`: `undefined` when any of domain, path, key is
nullish, otherwise the direct three-level lookup
`this.idx[domain]?.[path]?.[key]`. -/
def findCookieSync (idx : CookiesIndex) (domain path key : Option String) :
    Option Cookie :=
  match domain, path, key with
  | some d, some p, some k =>
    (jsGet idx d).bind fun dv => (jsGet dv p).bind fun pv => jsGet pv k
  | _, _, _ => none

/-- Embeds `_putCookieSyncInternal`: returns `false` leaving the index alone
when the canonical domain, the path or the key is nullish, otherwise stores
the cookie under `[canonicalDomain][path][key]`, creating missing levels,
and returns `true`.  The result pair is (changed, new index). -/
def putCookieSyncInternal (idx : CookiesIndex) (cookie : Cookie) :
    Bool × CookiesIndex :=
  match canonicalDomain cookie.domain, cookie.path, cookie.key with
  | some canDomain, some path, some key =>
    let domainVal := (jsGet idx canDomain).getD []
    let pathVal := (jsGet domainVal path).getD []
    (true, jsSet idx canDomain (jsSet domainVal path (jsSet pathVal key cookie)))
  | _, _, _ => (false, idx)

/-- Embeds `_removeCookieSyncInternal`: looks up the domain and path levels
(returning `false` when either is missing), performs `delete pathVal[key]`,
cleans up now-empty path and domain levels, and returns the value of the
`delete` expression.  The result pair is (deleted, new index). -/
def removeCookieSyncInternal (idx : CookiesIndex) (domain path key : String) :
    Bool × CookiesIndex :=
  match jsGet idx domain with
  | none => (false, idx)
  | some domainVal =>
    match jsGet domainVal path with
    | none => (false, idx)
    | some pathVal =>
      let del := jsDeleteExpr pathVal key
      if del.2 && jsIsEmpty del.1 then
        let domainVal' := jsDelete domainVal path
        if jsIsEmpty domainVal' then
          (del.2, jsDelete idx domain)
        else
          (del.2, jsSet idx domain domainVal')
      else
        (del.2, jsSet idx domain (jsSet domainVal path del.1))

/-- Embeds `_removeCookiesSyncInternal`: with a path, performs
`delete domainVal[path]` under the domain (returning `false` when the domain
level is missing) and cleans up a now-empty domain level; without a path,
performs `delete this.idx[domain]`.  Returns the value of the `delete`
expression paired with the new index. -/
def removeCookiesSyncInternal (idx : CookiesIndex) (domain : String)
    (path : Option String) : Bool × CookiesIndex :=
  match path with
  | some p =>
    match jsGet idx domain with
    | some domainVal =>
      let del := jsDeleteExpr domainVal p
      if del.2 && jsIsEmpty del.1 then
        (del.2, jsDelete idx domain)
      else
        (del.2, jsSet idx domain del.1)
    | none => (false, idx)
  | none =>
    let del := jsDeleteExpr idx domain
    (del.2, del.1)

/-- Embeds `_removeAllCookiesSyncInternal`: `false` when the index is already
empty, otherwise clears it. -/
def removeAllCookiesSyncInternal (idx : CookiesIndex) : Bool × CookiesIndex :=
  if jsIsEmpty idx then (false, idx) else (true, [])

/-- The sort key of `_getAllCookiesSync`'s comparator
`(a.creationIndex || 0) - (b.creationIndex || 0)`: an absent (or zero)
`creationIndex` counts as 0. -/
def ciKey (c : Cookie) : Nat := c.creationIndex.getD 0

/-- Comparator relation of `_getAllCookiesSync`: ascending `ciKey`. -/
def ciLE (a b : Cookie) : Prop := ciKey a ≤ ciKey b

instance : DecidableRel ciLE := fun a b => Nat.decLe (ciKey a) (ciKey b)

instance : IsTotal Cookie ciLE := ⟨fun a b => Nat.le_total (ciKey a) (ciKey b)⟩

instance : IsTrans Cookie ciLE := ⟨fun _ _ _ h h' => Nat.le_trans h h'⟩

/-- The flattening loop of `_getAllCookiesSync`: all cookies in index
iteration order (domain, then path, then key).  The source's `key != null`
test is vacuous for string keys and is dropped. -/
def allCookiesFlat (idx : CookiesIndex) : List Cookie :=
  (idx.map fun dv => (dv.2.map fun pv => pv.2.map Prod.snd).flatten).flatten

/-- Embeds `_getAllCookiesSync`: flattens the index and sorts with the
comparator `(a.creationIndex || 0) - (b.creationIndex || 0)`.
`Array.prototype.sort` is a stable sort whose result is ordered by the
(consistent) comparator; it is modelled as a stable insertion sort. -/
def getAllCookiesSync (idx : CookiesIndex) : List Cookie :=
  List.insertionSort ciLE (allCookiesFlat idx)

/-- The two on-disk formats (`FileFormat` in `cookie-file-store.ts`). -/
inductive FileFormat where
  | json
  | txt
deriving DecidableEq, Repr

/-- The source's `DefaultFileFormat` constant (`FileFormat.json`). -/
def DefaultFileFormat : FileFormat := FileFormat.json

/-- Embeds the format resolution of `_loadFromFileSync` (and identically
`_loadFromFileAsync`) when the store's file does not exist: the explicitly
configured `this.fileFormat` if any, else `DefaultFileFormat`
(`if (!this.fileFormat) { this.fileFormat = DefaultFileFormat }`).  The
result is the `this.fileFormat` that `_saveToStringSync` dispatches on for
every subsequent write. -/
def resolveFileFormatFileMissing (fileFormat : Option FileFormat) : FileFormat :=
  match fileFormat with
  | some f => f
  | none => DefaultFileFormat

/-- Embeds the format auto-detection of `_loadFromStringSync` when no format
was configured: data starting with `{` or `[` is JSON, anything else is the
line-oriented text format. -/
def detectFileFormat (data : String) : FileFormat :=
  match data.data with
  | '{' :: _ => FileFormat.json
  | '[' :: _ => FileFormat.json
  | _ => FileFormat.txt

/-! ### Line-oriented (Netscape `cookies.txt`) codec, from `netscape-cookies-txt.ts` -/

/-- JS regex whitespace class `\s` membership, for the ASCII characters. -/
def jsIsSpace (c : Char) : Bool :=
  c = ' ' || c = '\t' || c = '\n' || c = '\r' || c = '\x0b' || c = '\x0c'

/-- Boolean prefix test on character lists. -/
def strStarts : List Char → List Char → Bool
  | [], _ => true
  | _ :: _, [] => false
  | p :: ps, c :: cs => p = c && strStarts ps cs

/-- Splitting on `/\r\n|\n/` (the source's `data.split`). -/
def splitLinesAux : List Char → List Char → List (List Char)
  | [], acc => [acc.reverse]
  | '\r' :: '\n' :: rest, acc => acc.reverse :: splitLinesAux rest []
  | '\n' :: rest, acc => acc.reverse :: splitLinesAux rest []
  | c :: rest, acc => splitLinesAux rest (c :: acc)

/-- The source's `data.split(/\r\n|\n/)`. -/
def splitLines (data : String) : List String :=
  (splitLinesAux data.data []).map fun l => ⟨l⟩

/-- Splitting a character list on a single separator character. -/
def splitCharAux (sep : Char) : List Char → List Char → List (List Char)
  | [], acc => [acc.reverse]
  | c :: rest, acc =>
    if c = sep then acc.reverse :: splitCharAux sep rest []
    else splitCharAux sep rest (c :: acc)

/-- The source's `line.split(/\t/)`. -/
def splitTabs (line : String) : List String :=
  (splitCharAux '\t' line.data []).map fun l => ⟨l⟩

/-- The source's `AllWhitespaceRegex` test `^\s*$`. -/
def isAllWhitespace (line : String) : Bool := line.data.all jsIsSpace

/-- The source's `CommentRegex` test `^\s*#`. -/
def isCommentLine (line : String) : Bool :=
  match line.data.dropWhile jsIsSpace with
  | '#' :: _ => true
  | _ => false

/-- The source's `LeadingDotRegex` test `^\.`. -/
def hasLeadingDot (s : String) : Bool :=
  match s.data with
  | '.' :: _ => true
  | _ => false

/-- The source's `HttpOnly_` line marker constant (`#HttpOnly_`). -/
def httpOnlyMarker : String := "#HttpOnly_"

/-- The `line.startsWith('#HttpOnly_')` test. -/
def hasHttpOnlyMarker (line : String) : Bool :=
  strStarts httpOnlyMarker.data line.data

/-- The `line.substring(HttpOnlyPrefix.length)` stripping of the marker. -/
def dropHttpOnlyMarker (line : String) : String :=
  ⟨line.data.drop httpOnlyMarker.data.length⟩

/-- The header signature regex `^#(?: Netscape)? HTTP Cookie File`. -/
def netscapeHeaderSignature (s : String) : Bool :=
  strStarts "# Netscape HTTP Cookie File".data s.data ||
    strStarts "# HTTP Cookie File".data s.data

/-- Uppercases a string character-wise (the `toUpperCase()` of the secure
field, ASCII). -/
def strToUpper (s : String) : String := ⟨s.data.map Char.toUpper⟩

/-- Decimal digit test (code points 48 through 57). -/
def isDecDigit (c : Char) : Bool := decide (48 ≤ c.toNat ∧ c.toNat ≤ 57)

/-- Hexadecimal digit value, if any (code points of 0-9, a-f, A-F). -/
def hexDigitVal (c : Char) : Option Nat :=
  let n := c.toNat
  if 48 ≤ n ∧ n ≤ 57 then some (n - 48)
  else if 97 ≤ n ∧ n ≤ 102 then some (n - 87)
  else if 65 ≤ n ∧ n ≤ 70 then some (n - 55)
  else none

/-- Folds a digit list into a number in the given base. -/
def digitsVal (base : Nat) (dval : Char → Option Nat) (l : List Char) : Nat :=
  l.foldl (fun acc c => acc * base + (dval c).getD 0) 0

/-- Models the JS global `parseInt(str)` (no radix argument): skips leading
whitespace, accepts an optional sign, then either a `0x`/`0X` hexadecimal or
a decimal digit run; `none` models `NaN` (no digits). -/
def jsParseInt (s : String) : Option Int :=
  let l := s.data.dropWhile jsIsSpace
  let signAndRest : Int × List Char :=
    match l with
    | '-' :: rest => (-1, rest)
    | '+' :: rest => (1, rest)
    | _ => (1, l)
  let sign := signAndRest.1
  match signAndRest.2 with
  | '0' :: 'x' :: rest =>
    let digits := rest.takeWhile fun c => (hexDigitVal c).isSome
    if digits.isEmpty then none
    else some (sign * (digitsVal 16 hexDigitVal digits : Nat))
  | '0' :: 'X' :: rest =>
    let digits := rest.takeWhile fun c => (hexDigitVal c).isSome
    if digits.isEmpty then none
    else some (sign * (digitsVal 16 hexDigitVal digits : Nat))
  | rest =>
    let digits := rest.takeWhile isDecDigit
    if digits.isEmpty then none
    else some (sign * (digitsVal 10 (fun c => some (c.toNat - 48)) digits : Nat))

/-- Modelled from the spec: the JS builtin `decodeURIComponent`, which
percent-decodes the key and value fields; `none` models a thrown `URIError`.
Restricted to single-byte escapes (`%HH` with `HH < 0x80`); the multi-byte
UTF-8 escape sequences do not occur in the ASCII data considered here. -/
def decodeURIComponentAux : List Char → Option (List Char)
  | [] => some []
  | '%' :: rest =>
    match rest with
    | h :: l :: rest' =>
      match hexDigitVal h, hexDigitVal l with
      | some hv, some lv =>
        if hv * 16 + lv < 128 then
          (decodeURIComponentAux rest').map fun t => Char.ofNat (hv * 16 + lv) :: t
        else none
      | _, _ => none
    | _ => none
  | c :: rest => (decodeURIComponentAux rest).map fun t => c :: t

/-- See `decodeURIComponentAux`. -/
def decodeURIComponent (s : String) : Option String :=
  (decodeURIComponentAux s.data).map fun l => ⟨l⟩

/-- The characters `encodeURIComponent` leaves unescaped. -/
def uriUnreserved (c : Char) : Bool :=
  ('A' ≤ c && c ≤ 'Z') || ('a' ≤ c && c ≤ 'z') || ('0' ≤ c && c ≤ '9') ||
    c = '-' || c = '_' || c = '.' || c = '!' || c = '~' || c = '*' ||
    c = Char.ofNat 39 || c = '(' || c = ')'

/-- Uppercase hexadecimal digit character. -/
def hexDigitUpper (n : Nat) : Char :=
  Char.ofNat (if n < 10 then 48 + n else 55 + n)

/-- Modelled from the spec: the JS builtin `encodeURIComponent`, which
percent-encodes the key and value fields.  Restricted to ASCII characters
(one escape per character). -/
def encodeURIComponent (s : String) : String :=
  ⟨(s.data.map fun c =>
    if uriUnreserved c then [c]
    else ['%', hexDigitUpper (c.toNat / 16), hexDigitUpper (c.toNat % 16)]).flatten⟩

/-- Errors of the line-oriented parser, carrying the thrown message.
`uriError` stands for the `URIError` a JS `decodeURIComponent` call raises
on a malformed escape. -/
inductive TxtParseError where
  | notCookieFile (message : String)
  | invalidLine (message : String)
  | uriError
deriving DecidableEq, Repr

/-- Whether an error is the header-signature rejection. -/
def TxtParseError.isHeaderError : TxtParseError → Bool
  | .notCookieFile _ => true
  | _ => false

/-- The `expires` field of the parsed cookie:
`expireSeconds ? new Date(expireSeconds * 1000) : 'Infinity'`; `parseInt`'s
`NaN` and `0` are falsy and give the session marker. -/
def expiresOfSeconds : Option Int → Option Int
  | some n => if n = 0 then none else some n
  | none => none

/-- Embeds one iteration of the line loop of
`parseNetscapeCookiesTxtLineByLine`: skips blank lines, comment lines
(unless carrying the `HttpOnly_` marker with the extension enabled, in which
case the marker is stripped), rejects lines that do not split into exactly 7
tab-separated fields (`invalidLine`, or a silent skip reported through the
line-error callback under `forceParse`), skips lines with a falsy canonical
domain, and otherwise yields the canonical domain with the parsed cookie;
`parsed.getD i` stands for the source's `parsed[i]`, in bounds because the
field count was just checked.
Returns `none` for a skipped line.  The `creationIndex` of the freshly
constructed `tough.Cookie` comes from a process-global counter no txt field
encodes; it is modelled as absent. -/
def parseNetscapeCookiesTxtDataLine (forceParse httpOnlyExtension : Bool)
    (filePath : Option String) (lineNum : Nat) (line : String) :
    Except TxtParseError (Option (String × Cookie)) :=
  if isAllWhitespace line then .ok none
  else
    let httpOnly := hasHttpOnlyMarker line
    if isCommentLine line && (!httpOnly || !httpOnlyExtension) then .ok none
    else
      let line := if httpOnly then dropHttpOnlyMarker line else line
      let parsed := splitTabs line
      if parsed.length ≠ 7 then
        if !forceParse then
          .error (.invalidLine ("Line " ++ toString lineNum ++ " is not valid" ++
            (match filePath with
             | some f => " in cookies file " ++ f
             | none => "")))
        else .ok none
      else
        let domain := parsed.getD 0 ""
        match canonicalDomain (some domain) with
        | none => .ok none
        | some canDomain =>
          if canDomain = "" then .ok none
          else
            let expireSeconds := jsParseInt (parsed.getD 4 "")
            match decodeURIComponent (parsed.getD 5 ""),
                decodeURIComponent (parsed.getD 6 "") with
            | some key, some value =>
              .ok (some (canDomain,
                ⟨some key, value, some canDomain, some (parsed.getD 2 ""),
                  strToUpper (parsed.getD 3 "") = "TRUE", httpOnly,
                  some (!hasLeadingDot domain),
                  expiresOfSeconds expireSeconds, none⟩))
            | _, _ => .error .uriError

/-- The line loop of `parseNetscapeCookiesTxtLineByLine` over the split
lines, with the source's 1-based line counter. -/
def parseNetscapeCookiesTxtLines (forceParse httpOnlyExtension : Bool)
    (filePath : Option String) :
    Nat → List String → Except TxtParseError (List (String × Cookie))
  | _, [] => .ok []
  | lineNum, line :: rest =>
    match parseNetscapeCookiesTxtDataLine forceParse httpOnlyExtension filePath
        (lineNum + 1) line with
    | .error e => .error e
    | .ok none =>
      parseNetscapeCookiesTxtLines forceParse httpOnlyExtension filePath
        (lineNum + 1) rest
    | .ok (some pr) =>
      match parseNetscapeCookiesTxtLines forceParse httpOnlyExtension filePath
          (lineNum + 1) rest with
      | .error e => .error e
      | .ok prs => .ok (pr :: prs)

/-- Embeds `parseNetscapeCookiesTxtLineByLine` (the generator, collected into
the list of yielded (canonical domain, cookie) pairs): empty data parses to
nothing; otherwise the first split line (`lines[0]`) must satisfy the header
signature unless `forceParse` is set, and the line loop runs over all lines. -/
def parseNetscapeCookiesTxtLineByLine (data : String)
    (forceParse httpOnlyExtension : Bool) (filePath : Option String) :
    Except TxtParseError (List (String × Cookie)) :=
  if data = "" then .ok []
  else
    let lines := splitLines data
    let magic := lines.headD ""
    if (magic = "" || !netscapeHeaderSignature magic) && !forceParse then
      .error (.notCookieFile
        ((filePath.getD "File") ++ " does not look like a netscape cookies file"))
    else
      parseNetscapeCookiesTxtLines forceParse httpOnlyExtension filePath 0 lines

/-- The insertion step of `parseNetscapeCookiesTxtToIndex`: a yielded pair is
stored under `[domain][path][key]` when domain, path and key are all truthy
(non-nullish, non-empty). -/
def insertLoadedCookie (acc : CookiesIndex) (domain : String) (cookie : Cookie) :
    CookiesIndex :=
  match cookie.path, cookie.key with
  | some p, some k =>
    if domain = "" || p = "" || k = "" then acc
    else
      let domainVal := (jsGet acc domain).getD []
      let pathVal := (jsGet domainVal p).getD []
      jsSet acc domain (jsSet domainVal p (jsSet pathVal k cookie))
  | _, _ => acc

/-- Embeds `parseNetscapeCookiesTxtToIndex`: consumes the yielded pairs into
a three-level index. -/
def parseNetscapeCookiesTxtToIndex (data : String)
    (forceParse httpOnlyExtension : Bool) (filePath : Option String) :
    Except TxtParseError CookiesIndex :=
  match parseNetscapeCookiesTxtLineByLine data forceParse httpOnlyExtension filePath with
  | .error e => .error e
  | .ok prs => .ok (prs.foldl (fun acc pr => insertLoadedCookie acc pr.1 pr.2) [])

/-- Joins fields with tab separators (the source's `[..].join('\t')`). -/
def joinTabs : List String → String
  | [] => ""
  | [s] => s
  | s :: rest => s ++ "\t" ++ joinTabs rest

/-- Embeds `stringifyNetscapeCookiesTxtLine`: the domain is dot-prefixed when
the cookie is not host-only and carries the `HttpOnly_` marker when the
extension is enabled and the cookie is HTTP-only; the legacy subdomain flag
is recomputed from the (possibly dot-prefixed) written domain string; the
expiry is epoch seconds or `0` for the session marker; key and value are
percent-encoded.  An absent domain, path or key is written as its JS string
coercion of the empty kind that `Array.prototype.join` produces; cookies
reaching this writer from the index always carry all three. -/
def stringifyNetscapeCookiesTxtLine (httpOnlyExtension : Bool) (cookie : Cookie) :
    String :=
  let cookieDomain :=
    if !(cookie.hostOnly.getD false) then "." ++ cookie.domain.getD ""
    else cookie.domain.getD ""
  joinTabs
    [ if httpOnlyExtension && cookie.httpOnly then httpOnlyMarker ++ cookieDomain
      else cookieDomain,
      if cookieDomain ≠ "" && hasLeadingDot cookieDomain then "TRUE" else "FALSE",
      cookie.path.getD "",
      if cookie.secure then "TRUE" else "FALSE",
      match cookie.expires with
      | some s => toString s
      | none => "0",
      encodeURIComponent (cookie.key.getD ""),
      encodeURIComponent cookie.value ]

/-! ### Find-many helpers (external predicates, modelled from the spec) -/

/-- Modelled from the spec: the external cookie library's RFC 6265 path-match
predicate (`tough.pathMatch`): the request path matches a stored cookie path
when they are equal, or the cookie path is a proper prefix ending in a slash,
or the request path continues the cookie path with a slash. -/
def pathMatch (reqPath cookiePath : String) : Bool :=
  reqPath = cookiePath ||
    (strStarts cookiePath.data reqPath.data &&
      (match cookiePath.data.getLast? with
       | some '/' => true
       | _ =>
         match reqPath.data.drop cookiePath.data.length with
         | '/' :: _ => true
         | _ => false))

/-- Label-suffix permutations, shortest first: every suffix of the label
list with at least two labels. -/
def domainSuffixPermutations : List String → List String
  | [] => []
  | _ :: [] => []
  | l :: l' :: rest =>
    domainSuffixPermutations (l' :: rest) ++
      [String.intercalate "." (l :: l' :: rest)]

/-- Modelled from the spec: the external cookie library's domain-suffix
permutation (`tough.permuteDomain`): "the set of a domain's superdomain
suffixes eligible for cookie matching (e.g. a.b.com to a.b.com, b.com)";
`none` when the domain has no eligible suffix (fewer than two labels), upon
which the caller falls back to the domain itself.  The special-use-domain
toggle does not change the ASCII examples considered here and is unused by
the model. -/
def permuteDomain (domain : String) (_allowSpecialUseDomain : Bool) :
    Option (List String) :=
  match domainSuffixPermutations ((splitCharAux '.' domain.data []).map fun l => ⟨l⟩) with
  | [] => none
  | ds => some ds

/-- The path-matcher of `_findCookiesSync`: with a falsy path every cookie
under the domain entry is collected (`matchAll`), otherwise only the cookies
under stored paths that RFC-path-match the given path (`matchRFC`), in index
iteration order. -/
def collectDomainCookies (path : Option String) (domainIndex : CookiesDomainData) :
    List Cookie :=
  match path with
  | none => (domainIndex.map fun pv => pv.2.map Prod.snd).flatten
  | some "" => (domainIndex.map fun pv => pv.2.map Prod.snd).flatten
  | some p =>
    ((domainIndex.filter fun pv => pathMatch p pv.1).map fun pv =>
      pv.2.map Prod.snd).flatten

/-- Embeds `_findCookiesSync`: an empty (falsy) domain finds nothing;
otherwise the candidate domains are the suffix permutations of the domain
(falling back to the domain itself), and the cookies under each candidate
present in the index are collected through the path matcher. -/
def findCookiesSync (idx : CookiesIndex) (domain path : Option String)
    (allowSpecialUseDomain : Bool) : List Cookie :=
  match domain with
  | none => []
  | some "" => []
  | some d =>
    let domains := (permuteDomain d allowSpecialUseDomain).getD [d]
    (domains.map fun curDomain =>
      match jsGet idx curDomain with
      | none => []
      | some domainIndex => collectDomainCookies path domainIndex).flatten

/-! ### Store facade dispatch and the pending initial load

The facade state captures the fields the dispatch reads: the store-wide
`synchronous` mode, the index `idx`, and `_readPromise` as `readPending`
(`some (some loaded)` for an unsettled background load that will install the
index `loaded`, `some none` for one that will reject leaving the index
alone, `none` when no load is pending).  An operation's result is the value
its synchronous action computes at the moment the action runs: immediately
against the current index, or against the index as of the load's settlement
when the action was chained onto `_readPromise` with
`promise.then(continueFunc, continueFunc)`. -/

/-- The facade state read by the public operations. -/
structure StoreFacadeState where
  synchronous : Bool
  idx : CookiesIndex
  readPending : Option (Option CookiesIndex)
deriving Repr

/-- The state once the pending initial load settles: a successful load
installs its parsed index (`this.idx = cookies` in `_loadFromStringSync`), a
failed load leaves the index alone; `_readPromise` is deleted either way. -/
def settleLoad (s : StoreFacadeState) : StoreFacadeState :=
  match s.readPending with
  | some (some loaded) => ⟨s.synchronous, loaded, none⟩
  | some none => ⟨s.synchronous, s.idx, none⟩
  | none => s

/-- Embeds `_doSyncReadAsAsync`: when `_readPromise` is set the action is
chained to run after the load settles (on success and on failure alike) and
so reads the settled index; otherwise it runs immediately.  The boolean
records whether the operation waited on the pending load. -/
def doSyncReadAsAsync {α : Type} (s : StoreFacadeState)
    (action : CookiesIndex → α) : α × Bool :=
  match s.readPending with
  | some _ => (action (settleLoad s).idx, true)
  | none => (action s.idx, false)

/-- Embeds `_doSyncWriteAsAsync`: as `doSyncReadAsAsync` for a mutating
action returning (changed, new index); `_saveAsync` is invoked exactly when
the action reports a change.  Results: new facade state, whether the
operation waited on the pending load, and whether a save was scheduled. -/
def doSyncWriteAsAsync (s : StoreFacadeState)
    (action : CookiesIndex → Bool × CookiesIndex) :
    StoreFacadeState × Bool × Bool :=
  match s.readPending with
  | some _ =>
    let r := action (settleLoad s).idx
    (⟨s.synchronous, r.2, none⟩, true, r.1)
  | none =>
    let r := action s.idx
    (⟨s.synchronous, r.2, none⟩, false, r.1)

/-- Embeds the dispatch of `findCookie`: the synchronous mode runs
`_findCookieSync` immediately on the current index; the asynchronous mode
goes through `_findCookieAsync`, that is `_doSyncReadAsAsync`. -/
def findCookieOp (s : StoreFacadeState) (domain path key : Option String) :
    Option Cookie × Bool :=
  if s.synchronous then (findCookieSync s.idx domain path key, false)
  else doSyncReadAsAsync s fun idx => findCookieSync idx domain path key

/-- Embeds the dispatch of `findCookies` (see `findCookieOp`). -/
def findCookiesOp (s : StoreFacadeState) (domain path : Option String)
    (allowSpecialUseDomain : Bool) : List Cookie × Bool :=
  if s.synchronous then
    (findCookiesSync s.idx domain path allowSpecialUseDomain, false)
  else
    doSyncReadAsAsync s fun idx =>
      findCookiesSync idx domain path allowSpecialUseDomain

/-- Embeds the dispatch of `getAllCookies` (see `findCookieOp`). -/
def getAllCookiesOp (s : StoreFacadeState) : List Cookie × Bool :=
  if s.synchronous then (getAllCookiesSync s.idx, false)
  else doSyncReadAsAsync s fun idx => getAllCookiesSync idx

/-- Embeds the dispatch of `putCookie`: the synchronous mode runs
`_putCookieSync` immediately (mutating the current index and saving
synchronously when changed, without consulting `_readPromise`); the
asynchronous mode goes through `_putCookieAsync`, that is
`_doSyncWriteAsAsync`.  Results as in `doSyncWriteAsAsync`, the last boolean
being whether a file save was performed or scheduled. -/
def putCookieOp (s : StoreFacadeState) (cookie : Cookie) :
    StoreFacadeState × Bool × Bool :=
  if s.synchronous then
    let r := putCookieSyncInternal s.idx cookie
    (⟨s.synchronous, r.2, s.readPending⟩, false, r.1)
  else doSyncWriteAsAsync s fun idx => putCookieSyncInternal idx cookie

/-- Embeds `updateCookie`: implemented as `putCookie(newCookie)`; the old
cookie is not removed. -/
def updateCookieOp (s : StoreFacadeState) (_oldCookie newCookie : Cookie) :
    StoreFacadeState × Bool × Bool :=
  putCookieOp s newCookie

/-- Embeds the dispatch of `removeCookie` (see `putCookieOp`). -/
def removeCookieOp (s : StoreFacadeState) (domain path key : String) :
    StoreFacadeState × Bool × Bool :=
  if s.synchronous then
    let r := removeCookieSyncInternal s.idx domain path key
    (⟨s.synchronous, r.2, s.readPending⟩, false, r.1)
  else doSyncWriteAsAsync s fun idx => removeCookieSyncInternal idx domain path key

/-- Embeds the dispatch of `removeCookies` (see `putCookieOp`). -/
def removeCookiesOp (s : StoreFacadeState) (domain : String)
    (path : Option String) : StoreFacadeState × Bool × Bool :=
  if s.synchronous then
    let r := removeCookiesSyncInternal s.idx domain path
    (⟨s.synchronous, r.2, s.readPending⟩, false, r.1)
  else doSyncWriteAsAsync s fun idx => removeCookiesSyncInternal idx domain path

/-- Embeds the dispatch of `removeAllCookies` (see `putCookieOp`). -/
def removeAllCookiesOp (s : StoreFacadeState) :
    StoreFacadeState × Bool × Bool :=
  if s.synchronous then
    let r := removeAllCookiesSyncInternal s.idx
    (⟨s.synchronous, r.2, s.readPending⟩, false, r.1)
  else doSyncWriteAsAsync s fun idx => removeAllCookiesSyncInternal idx

/-! ### The asynchronous write scheduler (`_saveAsync`)

The scheduler is the pair of promise slots `_nextWritePromise` (the queued
next-write placeholder) and `_writePromise` (the write in flight), abstracted
into occupancy counters so that "at most one" is a provable property rather
than one built into the state type.  The events are the observable steps of
`_saveAsync`:

* `mutate`: a mutating call that needs persisting reaches `_saveAsync`,
  which creates a next-write placeholder only if none exists;
* `promote`: a queued placeholder resumes from its await (of the in-flight
  write, or of the one-tick batching delay) — it can only run when no write
  is in flight — becomes the active write (`_writePromise` takes it over,
  `_nextWritePromise` is cleared) and starts `_saveToFileAsync` on the
  current index;
* `complete`: the file write settles, `_writePromise` is cleared and the
  underlying file write is counted. -/

/-- Occupancy of the scheduler's promise slots plus the count of underlying
file writes performed. -/
structure WriteScheduler where
  nextWriteQueued : Nat
  writesInFlight : Nat
  writesCompleted : Nat
deriving Repr, DecidableEq

/-- The scheduler state with both slots empty and no writes performed. -/
def schedIdle : WriteScheduler := ⟨0, 0, 0⟩

/-- The observable events of `_saveAsync` (see the section comment). -/
inductive SchedEvent where
  | mutate
  | promote
  | complete
deriving Repr, DecidableEq

/-- One scheduler step. -/
def schedStep (s : WriteScheduler) : SchedEvent → WriteScheduler
  | .mutate =>
    if s.nextWriteQueued = 0 then
      ⟨s.nextWriteQueued + 1, s.writesInFlight, s.writesCompleted⟩
    else s
  | .promote =>
    if s.nextWriteQueued ≠ 0 ∧ s.writesInFlight = 0 then
      ⟨s.nextWriteQueued - 1, s.writesInFlight + 1, s.writesCompleted⟩
    else s
  | .complete =>
    if s.writesInFlight ≠ 0 then
      ⟨s.nextWriteQueued, s.writesInFlight - 1, s.writesCompleted + 1⟩
    else s

/-- Runs a sequence of scheduler events. -/
def schedRun (evs : List SchedEvent) (s : WriteScheduler) : WriteScheduler :=
  evs.foldl schedStep s

/-! ### Lemmas about the JS object model -/

theorem jsGet_jsSet_self {α : Type} (m : JsObj α) (k : String) (v : α) :
    jsGet (jsSet m k v) k = some v := by
  induction m with
  | nil => simp [jsSet, jsGet]
  | cons e rest ih =>
    by_cases h : e.1 = k
    · simp [jsSet, h, jsGet]
    · simp [jsSet, h, jsGet, ih]

theorem jsGet_jsSet_ne {α : Type} (m : JsObj α) {k k' : String} (v : α)
    (h : ¬ k = k') : jsGet (jsSet m k v) k' = jsGet m k' := by
  induction m with
  | nil => simp [jsSet, jsGet, h]
  | cons e rest ih =>
    by_cases he : e.1 = k
    · have he' : ¬ e.1 = k' := by rw [he]; exact h
      simp only [jsSet, if_pos he, jsGet, if_neg h, if_neg he']
    · simp only [jsSet, if_neg he, jsGet]
      by_cases he' : e.1 = k'
      · rw [if_pos he', if_pos he']
      · rw [if_neg he', if_neg he', ih]

theorem jsGet_jsDelete_self {α : Type} (m : JsObj α) (k : String) :
    jsGet (jsDelete m k) k = none := by
  induction m with
  | nil => simp [jsDelete, jsGet]
  | cons e rest ih =>
    by_cases h : e.1 = k
    · simp [jsDelete, h, ih]
    · simp [jsDelete, h, jsGet, ih]

theorem jsSet_isEmpty {α : Type} (m : JsObj α) (k : String) (v : α) :
    jsIsEmpty (jsSet m k v) = false := by
  cases m with
  | nil => simp [jsSet, jsIsEmpty]
  | cons e rest =>
    by_cases h : e.1 = k <;> simp [jsSet, h, jsIsEmpty]

theorem all_of_jsGet {α : Type} {P : String × α → Bool} :
    ∀ {m : JsObj α}, m.all P = true → ∀ {k : String} {v : α},
      jsGet m k = some v → P (k, v) = true := by
  intro m
  induction m with
  | nil => intro _ k v hget; simp [jsGet] at hget
  | cons e rest ih =>
    intro hall k v hget
    rw [List.all_cons, Bool.and_eq_true] at hall
    rw [jsGet] at hget
    by_cases h : e.1 = k
    · rw [if_pos h] at hget
      injection hget with hv
      subst hv
      rw [← h]
      exact hall.1
    · rw [if_neg h] at hget
      exact ih hall.2 hget

theorem all_jsSet {α : Type} {P : String × α → Bool} :
    ∀ (m : JsObj α), m.all P = true → ∀ (k : String) (w : α),
      P (k, w) = true → (jsSet m k w).all P = true := by
  intro m
  induction m with
  | nil =>
    intro _ k w hw
    simp [jsSet, hw]
  | cons e rest ih =>
    intro hall k w hw
    rw [List.all_cons, Bool.and_eq_true] at hall
    by_cases h : e.1 = k
    · simp [jsSet, h, List.all_cons, hw, hall.2]
    · simp [jsSet, h, List.all_cons, hall.1, ih hall.2 k w hw]

theorem all_jsDelete {α : Type} {P : String × α → Bool} :
    ∀ (m : JsObj α), m.all P = true → ∀ (k : String),
      (jsDelete m k).all P = true := by
  intro m
  induction m with
  | nil => intro _ _; simp [jsDelete]
  | cons e rest ih =>
    intro hall k
    rw [List.all_cons, Bool.and_eq_true] at hall
    by_cases h : e.1 = k
    · simp [jsDelete, h, ih hall.2 k]
    · simp [jsDelete, h, List.all_cons, hall.1, ih hall.2 k]

/-! ### Characterizations of the removal helpers -/

theorem removeOne_eq_of_noDomain (idx : CookiesIndex) (d p k : String)
    (hd : jsGet idx d = none) :
    removeCookieSyncInternal idx d p k = (false, idx) := by
  simp only [removeCookieSyncInternal, hd]

theorem removeOne_eq_of_noPath (idx : CookiesIndex) (d p k : String)
    {dv : CookiesDomainData} (hd : jsGet idx d = some dv)
    (hp : jsGet dv p = none) :
    removeCookieSyncInternal idx d p k = (false, idx) := by
  simp only [removeCookieSyncInternal, hd, hp]

theorem removeOne_eq_of_found (idx : CookiesIndex) (d p k : String)
    {dv : CookiesDomainData} {pv : CookiesMap}
    (hd : jsGet idx d = some dv) (hp : jsGet dv p = some pv) :
    removeCookieSyncInternal idx d p k =
      (if jsIsEmpty (jsDelete pv k) then
        (if jsIsEmpty (jsDelete dv p) then (true, jsDelete idx d)
         else (true, jsSet idx d (jsDelete dv p)))
       else (true, jsSet idx d (jsSet dv p (jsDelete pv k)))) := by
  simp only [removeCookieSyncInternal, hd, hp, jsDeleteExpr, Bool.true_and]

theorem removeMany_eq_of_noDomain (idx : CookiesIndex) (d p : String)
    (hd : jsGet idx d = none) :
    removeCookiesSyncInternal idx d (some p) = (false, idx) := by
  simp only [removeCookiesSyncInternal, hd]

theorem removeMany_eq_of_found (idx : CookiesIndex) (d p : String)
    {dv : CookiesDomainData} (hd : jsGet idx d = some dv) :
    removeCookiesSyncInternal idx d (some p) =
      (if jsIsEmpty (jsDelete dv p) then (true, jsDelete idx d)
       else (true, jsSet idx d (jsDelete dv p))) := by
  simp only [removeCookiesSyncInternal, hd, jsDeleteExpr, Bool.true_and]

theorem removeMany_eq_noPath (idx : CookiesIndex) (d : String) :
    removeCookiesSyncInternal idx d none = (true, jsDelete idx d) := rfl

theorem put_eq_of_valid (idx : CookiesIndex) (c : Cookie)
    {cd p k : String} (hcd : canonicalDomain c.domain = some cd)
    (hp : c.path = some p) (hk : c.key = some k) :
    putCookieSyncInternal idx c =
      (true, jsSet idx cd (jsSet ((jsGet idx cd).getD [])
        (p) (jsSet ((jsGet ((jsGet idx cd).getD []) p).getD []) k c))) := by
  simp only [putCookieSyncInternal, hcd, hp, hk]

/-! ### The no-empty-level invariant -/

/-- No domain entry maps to an empty path map and no path entry maps to an
empty key map. -/
def noEmptyLevels (idx : CookiesIndex) : Bool :=
  idx.all fun dv => !jsIsEmpty dv.2 && dv.2.all fun pv => !jsIsEmpty pv.2

/-- A domain value present in an index satisfying the invariant has no empty
path entry. -/
theorem noEmptyLevels_domainVal {idx : CookiesIndex} {d : String}
    {dv : CookiesDomainData} (h : noEmptyLevels idx = true)
    (hd : jsGet idx d = some dv) :
    dv.all (fun pv => !jsIsEmpty pv.2) = true := by
  have hh := all_of_jsGet h hd
  rw [Bool.and_eq_true] at hh
  exact hh.2

theorem noEmptyLevels_put (idx : CookiesIndex) (c : Cookie)
    (h : noEmptyLevels idx = true) :
    noEmptyLevels (putCookieSyncInternal idx c).2 = true := by
  cases hcd : canonicalDomain c.domain with
  | none => simpa [putCookieSyncInternal, hcd]
  | some cd =>
    cases hp : c.path with
    | none => simpa [putCookieSyncInternal, hcd, hp]
    | some p =>
      cases hk : c.key with
      | none => simpa [putCookieSyncInternal, hcd, hp, hk]
      | some k =>
        rw [put_eq_of_valid idx c hcd hp hk]
        apply all_jsSet idx h
        rw [Bool.and_eq_true]
        constructor
        · rw [Bool.not_eq_true', jsSet_isEmpty]
        · apply all_jsSet
          · cases hg : jsGet idx cd with
            | none => simp
            | some d0 => simpa using noEmptyLevels_domainVal h hg
          · rw [Bool.not_eq_true', jsSet_isEmpty]

theorem noEmptyLevels_removeOne (idx : CookiesIndex) (d p k : String)
    (h : noEmptyLevels idx = true) :
    noEmptyLevels (removeCookieSyncInternal idx d p k).2 = true := by
  cases hd : jsGet idx d with
  | none => rw [removeOne_eq_of_noDomain idx d p k hd]; exact h
  | some dv =>
    cases hp : jsGet dv p with
    | none => rw [removeOne_eq_of_noPath idx d p k hd hp]; exact h
    | some pv =>
      rw [removeOne_eq_of_found idx d p k hd hp]
      by_cases hpe : jsIsEmpty (jsDelete pv k)
      · rw [if_pos hpe]
        by_cases hde : jsIsEmpty (jsDelete dv p)
        · rw [if_pos hde]
          exact all_jsDelete idx h d
        · rw [if_neg hde]
          apply all_jsSet idx h
          rw [Bool.and_eq_true]
          refine ⟨?_, all_jsDelete dv (noEmptyLevels_domainVal h hd) p⟩
          rw [Bool.not_eq_true', Bool.eq_false_iff]
          exact hde
      · rw [if_neg hpe]
        apply all_jsSet idx h
        rw [Bool.and_eq_true]
        constructor
        · rw [Bool.not_eq_true', jsSet_isEmpty]
        · apply all_jsSet dv (noEmptyLevels_domainVal h hd)
          rw [Bool.not_eq_true', Bool.eq_false_iff]
          exact hpe

theorem noEmptyLevels_removeMany (idx : CookiesIndex) (d : String)
    (p : Option String) (h : noEmptyLevels idx = true) :
    noEmptyLevels (removeCookiesSyncInternal idx d p).2 = true := by
  cases p with
  | none =>
    rw [removeMany_eq_noPath idx d]
    exact all_jsDelete idx h d
  | some p0 =>
    cases hd : jsGet idx d with
    | none => rw [removeMany_eq_of_noDomain idx d p0 hd]; exact h
    | some dv =>
      rw [removeMany_eq_of_found idx d p0 hd]
      by_cases hde : jsIsEmpty (jsDelete dv p0)
      · rw [if_pos hde]
        exact all_jsDelete idx h d
      · rw [if_neg hde]
        apply all_jsSet idx h
        rw [Bool.and_eq_true]
        refine ⟨?_, all_jsDelete dv (noEmptyLevels_domainVal h hd) p0⟩
        rw [Bool.not_eq_true', Bool.eq_false_iff]
        exact hde

theorem noEmptyLevels_removeAll (idx : CookiesIndex)
    (h : noEmptyLevels idx = true) :
    noEmptyLevels (removeAllCookiesSyncInternal idx).2 = true := by
  unfold removeAllCookiesSyncInternal
  by_cases he : jsIsEmpty idx
  · rw [if_pos he]
    exact h
  · rw [if_neg he]
    rfl

/-- The index-mutating operations of the store. -/
inductive StoreOp where
  | putOp (cookie : Cookie)
  | removeOneOp (domain path key : String)
  | removeManyOp (domain : String) (path : Option String)
  | removeAllOp
deriving Repr

/-- The index produced by one mutating operation. -/
def applyStoreOp (idx : CookiesIndex) : StoreOp → CookiesIndex
  | .putOp c => (putCookieSyncInternal idx c).2
  | .removeOneOp d p k => (removeCookieSyncInternal idx d p k).2
  | .removeManyOp d p => (removeCookiesSyncInternal idx d p).2
  | .removeAllOp => (removeAllCookiesSyncInternal idx).2

/-- The index produced by a sequence of mutating operations. -/
def applyStoreOps (idx : CookiesIndex) (ops : List StoreOp) : CookiesIndex :=
  ops.foldl applyStoreOp idx

theorem noEmptyLevels_applyStoreOp (idx : CookiesIndex) (op : StoreOp)
    (h : noEmptyLevels idx = true) :
    noEmptyLevels (applyStoreOp idx op) = true := by
  cases op with
  | putOp c => exact noEmptyLevels_put idx c h
  | removeOneOp d p k => exact noEmptyLevels_removeOne idx d p k h
  | removeManyOp d p => exact noEmptyLevels_removeMany idx d p h
  | removeAllOp => exact noEmptyLevels_removeAll idx h

theorem noEmptyLevels_applyStoreOps (ops : List StoreOp) :
    ∀ idx : CookiesIndex, noEmptyLevels idx = true →
      noEmptyLevels (applyStoreOps idx ops) = true := by
  induction ops with
  | nil => intro idx h; exact h
  | cons op rest ih =>
    intro idx h
    exact ih (applyStoreOp idx op) (noEmptyLevels_applyStoreOp idx op h)

/-! ### Sample data used by concrete instances -/

/-- A concrete cookie `foo=foo` for `example.com` at `/`. -/
def sampleCookie : Cookie :=
  ⟨some "foo", "foo", some "example.com", some "/", false, false, some true, none, none⟩

/-- An index holding exactly `sampleCookie`. -/
def sampleIndex : CookiesIndex := [("example.com", [("/", [("foo", sampleCookie)])])]

/-! ### Claim theorems -/

/-- C1: the spec states that a store built on a nonexistent file path with
no explicit `fileFormat` option resolves to the line-oriented txt format.
Evaluating the embedded resolution at that input shows the code resolves to
`DefaultFileFormat`, which is the structured JSON format, not txt (the
option's own doc comment promises txt), so the first subsequent write
serializes as JSON. -/
theorem C1_default_format_is_json :
    resolveFileFormatFileMissing none = FileFormat.json ∧
      FileFormat.json ≠ FileFormat.txt := by
  exact ⟨rfl, by decide⟩

/-- C2: the spec states the internal removal helpers return `false` exactly
when no deletion occurred, so that removing an absent cookie never triggers
a file write.  Evaluating the embedded helpers shows otherwise: removing the
absent key `bar` under a present domain and path leaves the index unchanged
yet returns `true` (the JS `delete` of an absent property evaluates to
`true`), which makes `_removeCookieSync` / `_removeCookieAsync` write the
file; likewise remove-many on an absent domain with no path returns `true`. -/
theorem C2_remove_absent_triggers_write :
    removeCookieSyncInternal sampleIndex "example.com" "/" "bar"
        = (true, sampleIndex)
      ∧ removeCookiesSyncInternal [] "example.com" none = (true, []) := by
  exact ⟨rfl, rfl⟩

/-- C5: starting from an index with no empty intermediate mapping, any
sequence of put / remove-one / remove-many / remove-all operations preserves
the no-empty-level invariant; in particular removing the only cookie under a
domain and path deletes the path entry (the path is absent from the result,
not present with an empty value), removing it when that path was the only
one under its domain deletes the domain entry, and remove-many on the only
path of a domain deletes the domain entry. -/
theorem C5_no_empty_levels (ops : List StoreOp) (idx : CookiesIndex)
    (h : noEmptyLevels idx = true) :
    noEmptyLevels (applyStoreOps idx ops) = true
    ∧ (∀ (d p k : String) (c : Cookie) (dv : CookiesDomainData),
        jsGet idx d = some dv → jsGet dv p = some [(k, c)] →
          (∀ dv', jsGet (removeCookieSyncInternal idx d p k).2 d = some dv' →
            jsGet dv' p = none)
          ∧ (dv = [(p, [(k, c)])] →
            jsGet (removeCookieSyncInternal idx d p k).2 d = none))
    ∧ (∀ (d p : String) (pv : CookiesMap), jsGet idx d = some [(p, pv)] →
        jsGet (removeCookiesSyncInternal idx d (some p)).2 d = none) := by
  refine ⟨noEmptyLevels_applyStoreOps ops idx h, ?_, ?_⟩
  · intro d p k c dv hd hp
    have hpe : jsIsEmpty (jsDelete [(k, c)] k) = true := by
      simp [jsDelete, jsIsEmpty]
    rw [removeOne_eq_of_found idx d p k hd hp, if_pos hpe]
    by_cases hde : jsIsEmpty (jsDelete dv p)
    · rw [if_pos hde]
      constructor
      · intro dv' hdv'
        dsimp only at hdv'
        rw [jsGet_jsDelete_self] at hdv'
        exact absurd hdv' (by simp)
      · intro _
        dsimp only
        exact jsGet_jsDelete_self idx d
    · rw [if_neg hde]
      constructor
      · intro dv' hdv'
        dsimp only at hdv'
        rw [jsGet_jsSet_self] at hdv'
        injection hdv' with hdv'
        rw [← hdv']
        exact jsGet_jsDelete_self dv p
      · intro hsingle
        subst hsingle
        exact absurd (by simp [jsDelete, jsIsEmpty]) hde
  · intro d p pv hd
    have hde : jsIsEmpty (jsDelete [(p, pv)] p) = true := by
      simp [jsDelete, jsIsEmpty]
    rw [removeMany_eq_of_found idx d p hd, if_pos hde]
    dsimp only
    exact jsGet_jsDelete_self idx d

/-- Witness for C5 at a concrete index and operation sequence. -/
theorem C5_no_empty_levels_witness :
    noEmptyLevels (applyStoreOps sampleIndex
        [StoreOp.removeOneOp "example.com" "/" "foo"]) = true
      ∧ jsGet (removeCookieSyncInternal sampleIndex "example.com" "/" "foo").2
          "example.com" = none := by
  refine ⟨(C5_no_empty_levels [StoreOp.removeOneOp "example.com" "/" "foo"]
    sampleIndex (by decide)).1, ?_⟩
  exact (((C5_no_empty_levels [] sampleIndex (by decide)).2.1 "example.com" "/"
    "foo" sampleCookie [("/", [("foo", sampleCookie)])] (by decide)
    (by decide)).2 (by decide))

/-- C6: the internal put is a no-op returning `false` when the cookie's
canonical domain, path or key is nullish, and returns `true` whenever all
three are present — for every starting index, hence also when it overwrites
an identical already-stored cookie — creating any missing domain and path
levels so that the cookie is found at its canonical coordinates. -/
theorem C6_put_guard (idx : CookiesIndex) (c : Cookie) :
    ((canonicalDomain c.domain = none ∨ c.path = none ∨ c.key = none) →
      putCookieSyncInternal idx c = (false, idx))
    ∧ (∀ cd p k : String, canonicalDomain c.domain = some cd →
        c.path = some p → c.key = some k →
          (putCookieSyncInternal idx c).1 = true
          ∧ findCookieSync (putCookieSyncInternal idx c).2
              (some cd) (some p) (some k) = some c) := by
  constructor
  · intro hbad
    cases hcd : canonicalDomain c.domain with
    | none => simp [putCookieSyncInternal, hcd]
    | some cd =>
      cases hp : c.path with
      | none => simp [putCookieSyncInternal, hcd, hp]
      | some p =>
        cases hk : c.key with
        | none => simp [putCookieSyncInternal, hcd, hp, hk]
        | some k =>
          rcases hbad with hbad | hbad | hbad
          · rw [hcd] at hbad; exact absurd hbad (by simp)
          · rw [hp] at hbad; exact absurd hbad (by simp)
          · rw [hk] at hbad; exact absurd hbad (by simp)
  · intro cd p k hcd hp hk
    rw [put_eq_of_valid idx c hcd hp hk]
    constructor
    · rfl
    · dsimp only
      simp [findCookieSync, jsGet_jsSet_self]

/-- Witness for C6: both branches at concrete inputs — a cookie with no
domain is rejected without touching the index, and `sampleCookie` stored
over an index that already holds it still reports a change and is found. -/
theorem C6_put_guard_witness :
    putCookieSyncInternal sampleIndex
        ⟨some "foo", "foo", none, some "/", false, false, none, none, none⟩
        = (false, sampleIndex)
      ∧ (putCookieSyncInternal sampleIndex sampleCookie).1 = true := by
  refine ⟨(C6_put_guard sampleIndex _).1 (Or.inl rfl), ?_⟩
  exact ((C6_put_guard sampleIndex sampleCookie).2 "example.com" "/" "foo"
    rfl rfl rfl).1

/-- C7: for every index, get-all returns the flattened cookies in
non-decreasing `creationIndex` order (absent or zero `creationIndex`
counting as 0) — the result is sorted under `ciLE` and is a permutation of
the flattened index, whatever the insertion order of domains, paths and
keys. -/
theorem C7_getAll_sorted (idx : CookiesIndex) :
    List.Sorted ciLE (getAllCookiesSync idx)
      ∧ List.Perm (getAllCookiesSync idx) (allCookiesFlat idx) := by
  exact ⟨List.sorted_insertionSort ciLE (allCookiesFlat idx),
    List.perm_insertionSort ciLE (allCookiesFlat idx)⟩

/-- C10: put stores the cookie under the canonical form of its domain while
find-one looks its domain argument up verbatim: after putting a cookie with
a non-canonical domain into an empty index, find-one succeeds with the
canonical domain string and returns absent for the raw domain string. -/
theorem C10_put_canonicalizes_find_verbatim (c : Cookie) (raw cd p k : String)
    (hdom : c.domain = some raw) (hcan : canonicalDomain c.domain = some cd)
    (hne : raw ≠ cd) (hp : c.path = some p) (hk : c.key = some k) :
    findCookieSync (putCookieSyncInternal [] c).2 (some cd) (some p) (some k)
        = some c
      ∧ findCookieSync (putCookieSyncInternal [] c).2 (some raw) (some p)
          (some k) = none := by
  rw [put_eq_of_valid [] c hcan hp hk]
  constructor
  · dsimp only
    simp [findCookieSync, jsGet_jsSet_self]
  · dsimp only
    have hne' : ¬ cd = raw := fun hh => hne hh.symm
    simp [findCookieSync, jsSet, jsGet, hne']

/-- Witness for C10 at the mixed-case domain `Example.com`. -/
theorem C10_put_canonicalizes_find_verbatim_witness :
    findCookieSync (putCookieSyncInternal []
        ⟨some "foo", "foo", some "Example.com", some "/", false, false,
          some true, none, none⟩).2
        (some "example.com") (some "/") (some "foo")
      = some ⟨some "foo", "foo", some "Example.com", some "/", false, false,
          some true, none, none⟩ := by
  exact (C10_put_canonicalizes_find_verbatim
    ⟨some "foo", "foo", some "Example.com", some "/", false, false,
      some true, none, none⟩
    "Example.com" "example.com" "/" "foo" rfl (by decide) (by decide)
    rfl rfl).1

/-- C3 counterexample: the claim says every public operation waits for a
pending initial load in both store modes.  In synchronous mode with a
background load pending (options `async: false, loadAsync: true`),
`findCookie` answers immediately from the not-yet-populated index — it
returns absent without waiting even though the settled index holds the
cookie. -/
theorem C3_sync_mode_skips_pending_load :
    findCookieOp ⟨true, [], some (some sampleIndex)⟩
        (some "example.com") (some "/") (some "foo") = (none, false)
      ∧ findCookieSync sampleIndex (some "example.com") (some "/") (some "foo")
          = some sampleCookie := by
  exact ⟨rfl, rfl⟩

/-- C3 amended: in asynchronous store mode, every public operation
(find-one, find-many, get-all, put, update, remove-one, remove-many,
remove-all) with a pending initial load first waits for the load to settle
and then reads or mutates the settled index; the mutating operations
schedule a save exactly when the settled index changed. -/
theorem C3_async_ops_wait_for_load (s : StoreFacadeState)
    (hsync : s.synchronous = false) (hload : s.readPending.isSome = true) :
    (∀ d p k, findCookieOp s d p k
        = (findCookieSync (settleLoad s).idx d p k, true))
    ∧ (∀ d p a, findCookiesOp s d p a
        = (findCookiesSync (settleLoad s).idx d p a, true))
    ∧ getAllCookiesOp s = (getAllCookiesSync (settleLoad s).idx, true)
    ∧ (∀ c, (putCookieOp s c).2.1 = true
        ∧ (putCookieOp s c).1.idx = (putCookieSyncInternal (settleLoad s).idx c).2
        ∧ (putCookieOp s c).2.2 = (putCookieSyncInternal (settleLoad s).idx c).1)
    ∧ (∀ oc nc, (updateCookieOp s oc nc).2.1 = true
        ∧ (updateCookieOp s oc nc).1.idx
            = (putCookieSyncInternal (settleLoad s).idx nc).2)
    ∧ (∀ d p k, (removeCookieOp s d p k).2.1 = true
        ∧ (removeCookieOp s d p k).1.idx
            = (removeCookieSyncInternal (settleLoad s).idx d p k).2
        ∧ (removeCookieOp s d p k).2.2
            = (removeCookieSyncInternal (settleLoad s).idx d p k).1)
    ∧ (∀ d p, (removeCookiesOp s d p).2.1 = true
        ∧ (removeCookiesOp s d p).1.idx
            = (removeCookiesSyncInternal (settleLoad s).idx d p).2)
    ∧ ((removeAllCookiesOp s).2.1 = true
        ∧ (removeAllCookiesOp s).1.idx
            = (removeAllCookiesSyncInternal (settleLoad s).idx).2) := by
  obtain ⟨sync, idx, rp⟩ := s
  dsimp only at hsync
  subst hsync
  cases rp with
  | none => exact absurd hload (by simp)
  | some r =>
    exact ⟨fun d p k => rfl, fun d p a => rfl, rfl, fun c => ⟨rfl, rfl, rfl⟩,
      fun oc nc => ⟨rfl, rfl⟩, fun d p k => ⟨rfl, rfl, rfl⟩,
      fun d p => ⟨rfl, rfl⟩, rfl, rfl⟩

/-- Witness for C3 amended at a concrete pending-load state. -/
theorem C3_async_ops_wait_for_load_witness :
    findCookieOp ⟨false, [], some (some sampleIndex)⟩
        (some "example.com") (some "/") (some "foo")
      = (findCookieSync
          (settleLoad ⟨false, [], some (some sampleIndex)⟩).idx
          (some "example.com") (some "/") (some "foo"), true) := by
  exact (C3_async_ops_wait_for_load ⟨false, [], some (some sampleIndex)⟩
    rfl rfl).1 (some "example.com") (some "/") (some "foo")

/-! ### Scheduler lemmas for write coalescing -/

theorem schedStep_preserves (s : WriteScheduler) (e : SchedEvent)
    (h1 : s.nextWriteQueued ≤ 1) (h2 : s.writesInFlight ≤ 1) :
    (schedStep s e).nextWriteQueued ≤ 1 ∧ (schedStep s e).writesInFlight ≤ 1 := by
  cases e with
  | mutate =>
    simp only [schedStep]
    split_ifs with hc
    · refine ⟨?_, ?_⟩ <;> dsimp only <;> omega
    · exact ⟨h1, h2⟩
  | promote =>
    simp only [schedStep]
    split_ifs with hc
    · refine ⟨?_, ?_⟩ <;> dsimp only <;> omega
    · exact ⟨h1, h2⟩
  | complete =>
    simp only [schedStep]
    split_ifs with hc
    · refine ⟨?_, ?_⟩ <;> dsimp only <;> omega
    · exact ⟨h1, h2⟩

theorem schedRun_preserves (evs : List SchedEvent) :
    ∀ s : WriteScheduler, s.nextWriteQueued ≤ 1 → s.writesInFlight ≤ 1 →
      (schedRun evs s).nextWriteQueued ≤ 1
        ∧ (schedRun evs s).writesInFlight ≤ 1 := by
  induction evs with
  | nil => intro s h1 h2; exact ⟨h1, h2⟩
  | cons e rest ih =>
    intro s h1 h2
    have hh := schedStep_preserves s e h1 h2
    exact ih (schedStep s e) hh.1 hh.2

theorem schedRun_replicate_mutate_saturated (n : Nat) (f w : Nat) :
    schedRun (List.replicate n .mutate) ⟨1, f, w⟩ = ⟨1, f, w⟩ := by
  induction n with
  | zero => rfl
  | succ m ih =>
    rw [List.replicate_succ]
    show schedRun (List.replicate m .mutate) (schedStep ⟨1, f, w⟩ .mutate) = _
    exact ih

theorem schedRun_block (w : Nat) :
    schedRun [.mutate, .promote, .complete] ⟨0, 0, w⟩ = ⟨0, 0, w + 1⟩ := rfl

theorem schedRun_blocks (n : Nat) :
    ∀ w : Nat, schedRun (List.flatten
        (List.replicate n [.mutate, .promote, .complete])) ⟨0, 0, w⟩
      = ⟨0, 0, w + n⟩ := by
  induction n with
  | zero => intro w; rfl
  | succ m ih =>
    intro w
    rw [List.replicate_succ, List.flatten_cons]
    rw [schedRun, List.foldl_append]
    have hb : List.foldl schedStep ⟨0, 0, w⟩ [.mutate, .promote, .complete]
        = (⟨0, 0, w + 1⟩ : WriteScheduler) := rfl
    rw [hb]
    have hr := ih (w + 1)
    rw [schedRun] at hr
    rw [hr]
    congr 1
    omega

/-- C4: write coalescing of the asynchronous scheduler (`_saveAsync`).  For
every N of at least 1: N mutating calls issued with no intervening
suspension (no scheduler event between them) produce exactly 1 underlying
file write once the queued write promotes and completes; N mutating calls
each separated by a suspension long enough for the queued write to promote
and complete produce exactly N writes; and from idle, after any event
sequence at most one write is in flight and at most one next-write is
queued. -/
theorem C4_write_coalescing (n : Nat) (h : 1 ≤ n) :
    (schedRun (List.replicate n .mutate ++ [.promote, .complete])
        schedIdle).writesCompleted = 1
    ∧ (schedRun (List.flatten
        (List.replicate n [.mutate, .promote, .complete]))
        schedIdle).writesCompleted = n
    ∧ (∀ evs : List SchedEvent,
        (schedRun evs schedIdle).nextWriteQueued ≤ 1
          ∧ (schedRun evs schedIdle).writesInFlight ≤ 1) := by
  obtain ⟨m, rfl⟩ : ∃ m, n = m + 1 := ⟨n - 1, by omega⟩
  refine ⟨?_, ?_, ?_⟩
  · rw [List.replicate_succ, List.cons_append, schedRun, List.foldl_cons]
    show (List.foldl schedStep (⟨1, 0, 0⟩ : WriteScheduler)
      (List.replicate m .mutate ++ [.promote, .complete])).writesCompleted = 1
    rw [List.foldl_append]
    have hm := schedRun_replicate_mutate_saturated m 0 0
    rw [schedRun] at hm
    rw [hm]
    rfl
  · have hb := schedRun_blocks (m + 1) 0
    rw [schedRun] at hb
    rw [schedRun, show schedIdle = (⟨0, 0, 0⟩ : WriteScheduler) from rfl, hb]
    dsimp only
    omega
  · intro evs
    exact schedRun_preserves evs schedIdle (by decide) (by decide)

/-- Witness for C4 at N = 3. -/
theorem C4_write_coalescing_witness :
    (schedRun (List.replicate 3 .mutate ++ [.promote, .complete])
        schedIdle).writesCompleted = 1
      ∧ (schedRun (List.flatten
          (List.replicate 3 [.mutate, .promote, .complete]))
          schedIdle).writesCompleted = 3 := by
  exact ⟨(C4_write_coalescing 3 (by decide)).1, (C4_write_coalescing 3
    (by decide)).2.1⟩

/-! ### Header errors never arise past the signature check -/

theorem dataLine_not_headerError (forceParse httpOnlyExtension : Bool)
    (filePath : Option String) (lineNum : Nat) (line : String)
    (e : TxtParseError)
    (h : parseNetscapeCookiesTxtDataLine forceParse httpOnlyExtension filePath
      lineNum line = .error e) : e.isHeaderError = false := by
  unfold parseNetscapeCookiesTxtDataLine at h
  dsimp only at h
  repeat' split at h
  all_goals first
    | (injection h with h; rw [← h]; rfl)
    | injection h

theorem lines_not_headerError (forceParse httpOnlyExtension : Bool)
    (filePath : Option String) :
    ∀ (lines : List String) (n : Nat) (e : TxtParseError),
      parseNetscapeCookiesTxtLines forceParse httpOnlyExtension filePath n lines
        = .error e → e.isHeaderError = false := by
  intro lines
  induction lines with
  | nil =>
    intro n e h
    exact absurd h (by simp [parseNetscapeCookiesTxtLines])
  | cons line rest ih =>
    intro n e h
    rw [parseNetscapeCookiesTxtLines] at h
    cases hdl : parseNetscapeCookiesTxtDataLine forceParse httpOnlyExtension
        filePath (n + 1) line with
    | error e' =>
      rw [hdl] at h
      injection h with h
      rw [← h]
      exact dataLine_not_headerError forceParse httpOnlyExtension filePath
        (n + 1) line e' hdl
    | ok pr =>
      rw [hdl] at h
      cases pr with
      | none => exact ih (n + 1) e h
      | some pr0 =>
        cases hrec : parseNetscapeCookiesTxtLines forceParse httpOnlyExtension
            filePath (n + 1) rest with
        | error e' =>
          rw [hrec] at h
          injection h with h
          rw [← h]
          exact ih (n + 1) e' hrec
        | ok prs =>
          rw [hrec] at h
          exact absurd h (by simp)

/-- C9 counterexample: the claim ties the header check to the first
non-empty line.  On the input whose first line is blank and whose second
line is a matching header, the first non-empty line matches the signature,
yet parsing (which tests `lines[0]` only) raises the fatal error naming the
file even though force-parse is unset only requires a non-matching first
non-empty line. -/
theorem C9_first_nonempty_header_rejected :
    ((splitLines "\n# Netscape HTTP Cookie File").dropWhile
        (fun l => l = "")).headD "" = "# Netscape HTTP Cookie File"
      ∧ netscapeHeaderSignature "# Netscape HTTP Cookie File" = true
      ∧ parseNetscapeCookiesTxtLineByLine "\n# Netscape HTTP Cookie File"
          false true (some "cookies.txt")
        = .error (.notCookieFile
            "cookies.txt does not look like a netscape cookies file") := by
  exact ⟨rfl, rfl, rfl⟩

/-- C9 amended: the header check applies to the very first split line, not
the first non-empty line.  For every non-empty input: when force-parse is
unset and the first line is empty or fails the signature
`#(?: Netscape)? HTTP Cookie File`, parsing raises the fatal error naming
the file; when force-parse is set the header never causes a failure (any
parse error is a line-level one); and when the first line does match the
signature, the header rejection never fires whatever the flags. -/
theorem C9_header_check_amended (data : String)
    (forceParse httpOnlyExtension : Bool) (filePath : Option String)
    (h : data ≠ "") :
    (forceParse = false →
      ((splitLines data).headD "" = ""
          ∨ netscapeHeaderSignature ((splitLines data).headD "") = false) →
        parseNetscapeCookiesTxtLineByLine data forceParse httpOnlyExtension
            filePath
          = .error (.notCookieFile ((filePath.getD "File")
              ++ " does not look like a netscape cookies file")))
    ∧ (forceParse = true → ∀ e,
        parseNetscapeCookiesTxtLineByLine data forceParse httpOnlyExtension
            filePath = .error e → e.isHeaderError = false)
    ∧ (netscapeHeaderSignature ((splitLines data).headD "") = true → ∀ e,
        parseNetscapeCookiesTxtLineByLine data forceParse httpOnlyExtension
            filePath = .error e → e.isHeaderError = false) := by
  refine ⟨?_, ?_, ?_⟩
  · intro hfp hmagic
    subst hfp
    unfold parseNetscapeCookiesTxtLineByLine
    rw [if_neg h]
    dsimp only
    have hcond : ((decide ((splitLines data).headD "" = "")
        || !netscapeHeaderSignature ((splitLines data).headD "")) && !false)
          = true := by
      rcases hmagic with hm | hm
      · rw [hm]
        decide
      · rw [hm]
        simp
    rw [if_pos hcond]
  · intro hfp e he
    subst hfp
    unfold parseNetscapeCookiesTxtLineByLine at he
    rw [if_neg h] at he
    dsimp only at he
    rw [if_neg (by simp)] at he
    exact lines_not_headerError true httpOnlyExtension filePath
      (splitLines data) 0 e he
  · intro hsig e he
    unfold parseNetscapeCookiesTxtLineByLine at he
    rw [if_neg h] at he
    dsimp only at he
    have hne : ¬ (splitLines data).headD "" = "" := by
      intro hh
      rw [hh] at hsig
      exact absurd hsig (by decide)
    have hcond : ((decide ((splitLines data).headD "" = "")
        || !netscapeHeaderSignature ((splitLines data).headD ""))
          && !forceParse) = false := by
      rw [hsig, decide_eq_false hne]
      rfl
    rw [if_neg (by rw [hcond]; exact Bool.false_ne_true)] at he
    exact lines_not_headerError forceParse httpOnlyExtension filePath
      (splitLines data) 0 e he

/-- Witness for C9 amended: a non-matching first line with force-parse unset
is fatally rejected with the error naming the file. -/
theorem C9_header_check_amended_witness :
    parseNetscapeCookiesTxtLineByLine "garbage" false true (some "cookies.txt")
      = .error (.notCookieFile
          "cookies.txt does not look like a netscape cookies file") := by
  exact (C9_header_check_amended "garbage" false true (some "cookies.txt")
    (by decide)).1 rfl (Or.inr (by decide))

/-- The cookie parsed from the C8 data line. -/
def c8Cookie : Cookie :=
  ⟨some "foo", "bar", some "example.com", some "/", false, false, some true,
    none, none⟩

/-- C8: the data line `example.com\tFALSE\t/\tFALSE\t0\tfoo\tbar` parses
(under force-parse, which tolerates the missing header, with the HTTP-only
extension at its default) to a session cookie — no expiry — with key `foo`,
value `bar`, `secure` false and `hostOnly` true, and serializing that cookie
back produces the identical line. -/
theorem C8_line_roundtrip :
    parseNetscapeCookiesTxtLineByLine
        "example.com\tFALSE\t/\tFALSE\t0\tfoo\tbar" true true none
      = .ok [("example.com", c8Cookie)]
      ∧ c8Cookie.key = some "foo" ∧ c8Cookie.value = "bar"
      ∧ c8Cookie.secure = false ∧ c8Cookie.hostOnly = some true
      ∧ c8Cookie.expires = none
      ∧ stringifyNetscapeCookiesTxtLine true c8Cookie
        = "example.com\tFALSE\t/\tFALSE\t0\tfoo\tbar" := by
  refine ⟨?_, rfl, rfl, rfl, rfl, rfl, ?_⟩ <;> rfl
